import Mathlib

/-!
Verification of the VLAMy OCR annotation backend (`ocr_app`): a shallow
embedding of the annotation/transcription data model, the transcription
save/versioning logic, the Roboflow detection normalizer, the classification
mapper, the OCR response handling, and the PageXML export/import codec,
together with theorems settling the specified properties.

Python strings are embedded as `List Char` (named `PyStr`), so that the
string-processing primitives (`str.split`, `str.strip`, `str.lower`,
`str.replace`, `int(...)`) can be given as structurally recursive,
kernel-evaluable functions. Python float arithmetic on detector coordinates
is embedded as exact rational arithmetic (`ℚ`); every concrete input used in
the theorems below is exactly representable, so no floating rounding is
involved.
-/

namespace VLAMy

/-- Embedding of a Python `str` as a list of characters. -/
abbrev PyStr := List Char

/-- Python `s.split(sep)` for a one-character separator: splits at every
occurrence, keeping empty pieces. -/
def pySplit (sep : Char) : PyStr → List PyStr
  | [] => [[]]
  | c :: rest =>
    let r := pySplit sep rest
    if c = sep then [] :: r
    else
      match r with
      | [] => [[c]]
      | h :: t => (c :: h) :: t

/-- Python `s.split(sep, 1)` for a one-character separator: splits at the
first occurrence only; `none` when the separator does not occur
(the source guards each such split with `if sep in item`). -/
def pySplitFirst (sep : Char) : PyStr → Option (PyStr × PyStr)
  | [] => none
  | c :: rest =>
    if c = sep then some ([], rest)
    else
      match pySplitFirst sep rest with
      | none => none
      | some (k, v) => some (c :: k, v)

/-- Python `s.strip()`: removes leading and trailing whitespace. -/
def pyStrip (s : PyStr) : PyStr :=
  ((s.dropWhile Char.isWhitespace).reverse.dropWhile Char.isWhitespace).reverse

/-- Python `s.lower()`. -/
def pyLower (s : PyStr) : PyStr :=
  s.map Char.toLower

/-- Python `s.replace(old, new)` for one-character patterns. -/
def pyReplace (old new : Char) (s : PyStr) : PyStr :=
  s.map fun c => if c = old then new else c

/-- Python `int(s)` restricted to non-empty all-digit strings, the shape
the PageXML importer feeds it; any other input raises `ValueError`,
embedded as `none`. -/
def pyParseNat (s : PyStr) : Option Nat :=
  if s ≠ [] ∧ s.all Char.isDigit then
    some (s.foldl (fun acc c => 10 * acc + (c.toNat - '0'.toNat)) 0)
  else none

/-- Python truthiness of a string (`if value:`): non-empty. -/
def pyTruthy (s : PyStr) : Bool := s ≠ []

/-! ## Classification ontology (`models.py`)

`ZONE_TYPES` and `LINE_TYPES` are the built-in (code, human label) pairs. -/

def ZONE_TYPES : List (PyStr × PyStr) :=
  [("CustomZone".data, "Custom Zone".data),
   ("DamageZone".data, "Damage Zone".data),
   ("DigitizationArtefactZone".data, "Digitization Artefact Zone".data),
   ("DropCapitalZone".data, "Drop Capital Zone".data),
   ("GraphicZone".data, "Graphic Zone".data),
   ("MainZone".data, "Main Zone".data),
   ("MarginTextZone".data, "Margin Text Zone".data),
   ("MusicZone".data, "Music Zone".data),
   ("NumberingZone".data, "Numbering Zone".data),
   ("QuireMarksZone".data, "Quire Marks Zone".data),
   ("RunningTitleZone".data, "Running Title Zone".data),
   ("SealZone".data, "Seal Zone".data),
   ("StampZone".data, "Stamp Zone".data),
   ("TableZone".data, "Table Zone".data),
   ("TitlePageZone".data, "Title Page Zone".data)]

def LINE_TYPES : List (PyStr × PyStr) :=
  [("CustomLine".data, "Custom Line".data),
   ("DefaultLine".data, "Default Line".data),
   ("DropCapitalLine".data, "Drop Capital Line".data),
   ("HeadingLine".data, "Heading Line".data),
   ("InterlinearLine".data, "Interlinear Line".data),
   ("MusicLine".data, "Music Line".data)]

/-- `[code for code, label in ZONE_TYPES]` in `_map_classification`. -/
def zoneValues : List PyStr := ZONE_TYPES.map Prod.fst

/-- `[code for code, label in LINE_TYPES]` in `_map_classification`. -/
def lineValues : List PyStr := LINE_TYPES.map Prod.fst

/-- `PAGEXML_MAPPINGS` from `models.py`: ontology code → PageXML region tag. -/
def PAGEXML_MAPPINGS : List (PyStr × PyStr) :=
  [("CustomZone".data, "CustomRegion".data),
   ("DamageZone".data, "NoiseRegion".data),
   ("DigitizationArtefactZone".data, "NoiseRegion".data),
   ("DropCapitalZone".data, "TextRegion".data),
   ("GraphicZone".data, "GraphicRegion".data),
   ("MainZone".data, "TextRegion".data),
   ("MarginTextZone".data, "TextRegion".data),
   ("MusicZone".data, "MusicRegion".data),
   ("NumberingZone".data, "TextRegion".data),
   ("QuireMarksZone".data, "TextRegion".data),
   ("RunningTitleZone".data, "TextRegion".data),
   ("SealZone".data, "ImageRegion".data),
   ("StampZone".data, "ImageRegion".data),
   ("TableZone".data, "TableRegion".data),
   ("TitlePageZone".data, "TextRegion".data),
   ("CustomLine".data, "TextLine".data),
   ("DefaultLine".data, "TextLine".data),
   ("DropCapitalLine".data, "TextLine".data),
   ("HeadingLine".data, "TextLine".data),
   ("InterlinearLine".data, "TextLine".data),
   ("MusicLine".data, "TextLine".data)]

/-- The slice of `UserProfile` consulted by the detection mapper: the custom
detection remap table (a dict, embedded as an association list with distinct
keys) and the enabled zone codes. -/
structure UserProfile where
  custom_detection_mappings : List (PyStr × PyStr)
  enabled_zone_types : List PyStr
deriving Repr, DecidableEq

/-! ## Detection classification mapper
(`RoboflowDetectionService._map_classification`, `services.py`) -/

/-- The `zone_mappings` fallback table from `_map_classification`. -/
def zone_mappings : List (PyStr × PyStr) :=
  [("text".data, "MainZone".data),
   ("text_region".data, "MainZone".data),
   ("paragraph".data, "MainZone".data),
   ("title".data, "TitlePageZone".data),
   ("heading".data, "MainZone".data),
   ("table".data, "TableZone".data),
   ("image".data, "GraphicZone".data),
   ("figure".data, "GraphicZone".data),
   ("graphic".data, "GraphicZone".data),
   ("margin".data, "MarginTextZone".data),
   ("footer".data, "MarginTextZone".data),
   ("header".data, "MarginTextZone".data),
   ("page_number".data, "NumberingZone".data),
   ("stamp".data, "StampZone".data),
   ("seal".data, "SealZone".data),
   ("envelope".data, "CustomZone".data),
   ("postcard".data, "CustomZone".data)]

/-- The `line_mappings` fallback table from `_map_classification`. -/
def line_mappings : List (PyStr × PyStr) :=
  [("text_line".data, "DefaultLine".data),
   ("line".data, "DefaultLine".data),
   ("heading_line".data, "HeadingLine".data),
   ("title_line".data, "HeadingLine".data)]

/-- Step 2 of `_map_classification`: `if user_profile and
user_profile.custom_detection_mappings:`, then `dict.get(original_class)`
followed by `if custom_mapping:` (the hit counts only when the dict is
non-empty, the key is present and its value is truthy). -/
def customMappingHit (user_profile : Option UserProfile) (original_class : PyStr) :
    Option PyStr :=
  match user_profile with
  | none => none
  | some up =>
    if up.custom_detection_mappings = [] then none
    else
      match up.custom_detection_mappings.lookup original_class with
      | none => none
      | some m => if pyTruthy m then some m else none

/-- Step 3 of `_map_classification`: `if user_profile and detection_type ==
'zone'` then `original_class in (user_profile.enabled_zone_types or [])`. -/
def enabledZoneHit (user_profile : Option UserProfile) (detection_type : PyStr)
    (original_class : PyStr) : Bool :=
  match user_profile with
  | none => false
  | some up =>
    decide (detection_type = "zone".data) &&
      decide (original_class ∈ up.enabled_zone_types)

/-- `RoboflowDetectionService._map_classification`, translated clause by
clause: (1) exact match against the family's built-in code list; (2) the
user's custom detection mapping, when truthy; (3) pass-through of enabled
custom zone codes (zone family only); (4) normalized fallback table;
(5) family default. -/
def mapClassification (original_class detection_type : PyStr)
    (user_profile : Option UserProfile) : PyStr :=
  if (if detection_type = "zone".data then original_class ∈ zoneValues
      else original_class ∈ lineValues) then
    original_class
  else
    match customMappingHit user_profile original_class with
    | some m => m
    | none =>
      if enabledZoneHit user_profile detection_type original_class then
        original_class
      else
        let normalized_class := pyReplace ' ' '_' (pyLower original_class)
        if detection_type = "line".data then
          (line_mappings.lookup normalized_class).getD "DefaultLine".data
        else
          (zone_mappings.lookup normalized_class).getD "CustomZone".data

/-! ### Spec-side resolution, for comparison

The specification words the resolver as an ordered rule list, first match
wins. The rules below follow the spec text; note that rule 2 is literally
"`custom_detection_mappings[raw_code]` if present", with no truthiness
condition on the mapped value. -/

/-- The family of a resolution call, `zone` or `line` (the spec's resolver is
binary; the source passes the strings `"zone"`/`"line"`). -/
inductive Family where
  | zone
  | line
deriving Repr, DecidableEq

/-- Family as the `detection_type` string the source passes around. -/
def Family.toStr : Family → PyStr
  | .zone => "zone".data
  | .line => "line".data

/-- Spec rule 1: exact match against the family's built-in code list, passed
through unchanged. -/
def specRuleBuiltin (raw : PyStr) (family : Family) (_ : Option UserProfile) :
    Option PyStr :=
  if raw ∈ (match family with | .zone => zoneValues | .line => lineValues) then
    some raw
  else none

/-- Spec rule 2: the user's `custom_detection_mappings[raw_code]` if present
(worded without any truthiness condition on the value). -/
def specRuleOverride (raw : PyStr) (_ : Family) (up : Option UserProfile) :
    Option PyStr :=
  match up with
  | none => none
  | some u => u.custom_detection_mappings.lookup raw

/-- Spec rule 3: for the zone family, pass through a raw code found in the
user's enabled custom zone list. -/
def specRuleEnabledZone (raw : PyStr) (family : Family) (up : Option UserProfile) :
    Option PyStr :=
  match up, family with
  | some u, .zone => if raw ∈ u.enabled_zone_types then some raw else none
  | _, _ => none

/-- Spec rule 4: case-insensitive, space-to-underscore-normalized lookup in
the fixed fallback table of the family. -/
def specRuleFallback (raw : PyStr) (family : Family) (_ : Option UserProfile) :
    Option PyStr :=
  let normalized := pyReplace ' ' '_' (pyLower raw)
  match family with
  | .zone => zone_mappings.lookup normalized
  | .line => line_mappings.lookup normalized

/-- Spec rule 5: the family default. -/
def specDefault : Family → PyStr
  | .zone => "CustomZone".data
  | .line => "DefaultLine".data

/-- The spec's resolver: the rules in order, first match wins, else the
family default. -/
def resolveSpec (raw : PyStr) (family : Family) (up : Option UserProfile) : PyStr :=
  (((specRuleBuiltin raw family up).orElse fun _ =>
    (specRuleOverride raw family up).orElse fun _ =>
      (specRuleEnabledZone raw family up).orElse fun _ =>
        specRuleFallback raw family up).getD (specDefault family))

/-- Spec rule 2 as amended: the override entry counts only when its mapped
value is non-empty (the source guards the hit with Python truthiness,
`if custom_mapping:`). -/
def specRuleOverrideTruthy (raw : PyStr) (_ : Family) (up : Option UserProfile) :
    Option PyStr :=
  match up with
  | none => none
  | some u =>
    match u.custom_detection_mappings.lookup raw with
    | none => none
    | some v => if pyTruthy v then some v else none

/-- The amended resolver: the spec's rules in order, first match wins, with
rule 2 restricted to truthy override values. -/
def resolveSpecAmended (raw : PyStr) (family : Family) (up : Option UserProfile) :
    PyStr :=
  (((specRuleBuiltin raw family up).orElse fun _ =>
    (specRuleOverrideTruthy raw family up).orElse fun _ =>
      (specRuleEnabledZone raw family up).orElse fun _ =>
        specRuleFallback raw family up).getD (specDefault family))

/-- Steps 2 of the source and the amended spec rule 2 agree (the source's
extra guard on a non-empty mapping dict is redundant: lookup in an empty
dict misses anyway). -/
theorem customMappingHit_eq (raw : PyStr) (family : Family) (up : Option UserProfile) :
    customMappingHit up raw = specRuleOverrideTruthy raw family up := by
  cases up with
  | none => rfl
  | some u =>
    simp only [customMappingHit, specRuleOverrideTruthy]
    by_cases hd : u.custom_detection_mappings = []
    · simp [hd]
    · simp only [hd, if_neg hd]
      rfl

/-- A user profile whose override table maps `Foo` to the empty string: the
spec's literal rule 2 ("the entry, if present") fires on it, the source's
truthiness guard skips it. -/
def overrideEmptyProfile : UserProfile :=
  { custom_detection_mappings := [("Foo".data, "".data)]
    enabled_zone_types := [] }

/-- C5 counterexample: with an override entry `"Foo" → ""` present (and
`"Foo"` not a built-in code), the source does not return the entry's value —
it skips the falsy entry and falls through to the default `CustomZone` —
so resolution does not apply the claimed rule order with literal rule 2
("the user's custom_detection_mappings entry"). -/
theorem c5_counterexample :
    mapClassification "Foo".data Family.zone.toStr (some overrideEmptyProfile) ≠
        resolveSpec "Foo".data Family.zone (some overrideEmptyProfile) ∧
      (overrideEmptyProfile.custom_detection_mappings.lookup "Foo".data
          = some "".data) ∧
      "Foo".data ∉ zoneValues := by
  refine ⟨?_, by decide, by decide⟩
  decide

/-- C5 (amended): for every raw class, family and user context the source's
`_map_classification` equals the spec's first-match-wins rule chain with
rule 2 amended to skip empty override values; and a raw code that is a
built-in zone code is always passed through unchanged (built-in exact match
outranks everything, including any override entry for the same key). -/
theorem c5_resolution_priority_order :
    (∀ (raw : PyStr) (family : Family) (up : Option UserProfile),
        mapClassification raw family.toStr up = resolveSpecAmended raw family up) ∧
    (∀ (raw : PyStr) (up : Option UserProfile), raw ∈ zoneValues →
        mapClassification raw "zone".data up = raw) := by
  constructor
  · intro raw family up
    cases family
    case zone =>
      simp only [mapClassification, Family.toStr, resolveSpecAmended, specRuleBuiltin,
        specRuleEnabledZone, specRuleFallback, specDefault, enabledZoneHit,
        ← customMappingHit_eq raw Family.zone up]
      by_cases h1 : raw ∈ zoneValues
      · simp [h1]
      · simp only [if_neg h1, if_pos rfl, h1, if_false]
        cases hc : customMappingHit up raw with
        | some m => simp [hc]
        | none =>
          simp only [hc]
          cases up with
          | none => simp
          | some u =>
            by_cases h3 : raw ∈ u.enabled_zone_types
            · simp [h3]
            · simp [h3]
    case line =>
      simp only [mapClassification, Family.toStr, resolveSpecAmended, specRuleBuiltin,
        specRuleEnabledZone, specRuleFallback, specDefault, enabledZoneHit,
        ← customMappingHit_eq raw Family.line up]
      by_cases h1 : raw ∈ lineValues
      · simp [h1]
      · simp only [if_neg h1, h1, if_false]
        have hne : ¬("line".data = "zone".data) := by decide
        simp only [if_neg hne]
        cases hc : customMappingHit up raw with
        | some m => simp [hc]
        | none =>
          simp only [hc]
          cases up with
          | none => simp
          | some u => simp
  · intro raw up h
    simp [mapClassification, h]

/-- C5 witness: the built-in zone code `MainZone` resolves to itself even
when the user's override table remaps it, by the theorem's second clause;
and the equality clause instantiated at the same concrete input. -/
theorem c5_resolution_priority_order_witness :
    mapClassification "MainZone".data "zone".data
        (some { custom_detection_mappings := [("MainZone".data, "CustomLine".data)]
                enabled_zone_types := [] }) = "MainZone".data ∧
      mapClassification "stamp".data Family.zone.toStr none
        = resolveSpecAmended "stamp".data Family.zone none :=
  ⟨c5_resolution_priority_order.2 "MainZone".data
      (some { custom_detection_mappings := [("MainZone".data, "CustomLine".data)]
              enabled_zone_types := [] }) (by decide),
   c5_resolution_priority_order.1 "stamp".data Family.zone none⟩

/-! ## Transcription ledger (`models.py`, `Transcription`)

A `Transcription` row, with the fields the claims are about. Primary keys
(UUIDs in the source) are embedded as `Nat`; foreign keys likewise. Model
defaults: `status = 'pending'`, `version = 1`, `is_current = True`, empty
text/error, no parent. The `annot` field embeds the nullable `annotation`
foreign key. -/
structure TransRec where
  id : Nat
  image : Nat
  annot : Option Nat
  transcription_type : PyStr
  api_endpoint : PyStr
  api_model : PyStr
  status : PyStr
  text_content : PyStr
  error_message : PyStr
  version : Nat
  is_current : Bool
  parent_transcription : Option Nat
  created_by : Nat
deriving Repr, DecidableEq

/-- The claims' notion of target: the pair (image, annotation-or-null). -/
def targetOf (r : TransRec) : Nat × Option Nat := (r.image, r.annot)

/-- The queryset filter in `Transcription.save`: when the saved record has an
annotation, other records are matched by `annotation=self.annotation`; when
it has none, by `image=self.image, annotation__isnull=True`. -/
def matchesTargetQuery (t r : TransRec) : Bool :=
  match t.annot with
  | some a => decide (r.annot = some a)
  | none => decide (r.image = t.image ∧ r.annot = none)

/-- The effect of the `update(is_current=False)` queryset on one row: the
row is un-currented when it matches the target filter, is current, and is
not the row being saved (`exclude(id=self.id)`). -/
def flipOne (t r : TransRec) : TransRec :=
  if r.id ≠ t.id ∧ matchesTargetQuery t r ∧ r.is_current then
    { r with is_current := false }
  else r

/-- `Transcription.objects.filter(...).exclude(id=self.id).update(is_current=False)`
applied to the whole table. -/
def unCurrentOthers (t : TransRec) (db : List TransRec) : List TransRec :=
  db.map (flipOne t)

/-- `super().save(...)`: insert the row, or update it in place when a row
with the same primary key already exists. -/
def upsert (t : TransRec) (db : List TransRec) : List TransRec :=
  if db.any (fun r => decide (r.id = t.id)) then
    db.map (fun r => if r.id = t.id then t else r)
  else db ++ [t]

/-- `Transcription.save`: when the saved record is current, first un-current
every other record sharing the same target, then write the row. -/
def saveT (t : TransRec) (db : List TransRec) : List TransRec :=
  upsert t (if t.is_current then unCurrentOthers t db else db)

/-- A sequence of saves, applied in order. -/
def applySaves (ts : List TransRec) (db : List TransRec) : List TransRec :=
  ts.foldl (fun d t => saveT t d) db

/-- The row predicate "current for target `g`". -/
def isCurFor (g : Nat × Option Nat) (r : TransRec) : Bool :=
  r.is_current && decide (targetOf r = g)

/-- The rows of `db` that are current for the given target. -/
def currentsFor (db : List TransRec) (tgt : Nat × Option Nat) : List TransRec :=
  db.filter (isCurFor tgt)

/-- Primary-key discipline of the store: row ids are pairwise distinct. -/
def idsNodup (db : List TransRec) : Prop :=
  (db.map (fun r => r.id)).Nodup

/-- Invariant I1: at most one current transcription per target. -/
def AtMostOneCurrent (db : List TransRec) : Prop :=
  ∀ tgt, (currentsFor db tgt).length ≤ 1

/-- `Transcription.objects.get(pk=...)` / looking a row up by id. -/
def findRec (db : List TransRec) (i : Nat) : Option TransRec :=
  db.find? fun r => decide (r.id = i)

/-- Flipping never changes a row's id. -/
theorem flipOne_id (t r : TransRec) : (flipOne t r).id = r.id := by
  unfold flipOne
  split <;> rfl

/-- Flipping never changes a row's target. -/
theorem flipOne_targetOf (t r : TransRec) : targetOf (flipOne t r) = targetOf r := by
  unfold flipOne
  split <;> rfl

/-- The queryset flip preserves the id column. -/
theorem unCurrentOthers_map_id (t : TransRec) (db : List TransRec) :
    (unCurrentOthers t db).map (fun r => r.id) = db.map (fun r => r.id) := by
  unfold unCurrentOthers
  rw [List.map_map]
  exact List.map_congr_left fun r _ => flipOne_id t r

/-- A row whose target equals the saved row's target passes the queryset's
target filter. -/
theorem matchesTargetQuery_of_targetOf (t r : TransRec)
    (h : targetOf r = targetOf t) : matchesTargetQuery t r = true := by
  unfold targetOf at h
  unfold matchesTargetQuery
  cases ha : t.annot with
  | none =>
    simp only [decide_eq_true_eq]
    rw [ha] at h
    exact ⟨congrArg Prod.fst h, (Prod.mk.injEq _ _ _ _).mp h |>.2⟩
  | some a =>
    simp only [decide_eq_true_eq]
    rw [ha] at h
    exact (Prod.mk.injEq _ _ _ _).mp h |>.2

/-- After the flip pass, no row other than the saved one is current for the
saved row's target. -/
theorem flipOne_not_current_for_target (t r : TransRec) (hid : r.id ≠ t.id) :
    ¬((flipOne t r).is_current = true ∧ targetOf (flipOne t r) = targetOf t) := by
  rintro ⟨hc, htg⟩
  rw [flipOne_targetOf] at htg
  have hm := matchesTargetQuery_of_targetOf t r htg
  unfold flipOne at hc
  by_cases hcur : r.is_current = true
  · rw [if_pos ⟨hid, hm, hcur⟩] at hc
    simp at hc
  · rw [if_neg (by tauto)] at hc
    exact hcur hc

/-- A row with the saved row's id is untouched by the flip pass
(the `exclude(id=self.id)` clause). -/
theorem flipOne_eq_of_id_eq (t r : TransRec) (h : r.id = t.id) :
    flipOne t r = r := by
  unfold flipOne
  rw [if_neg]
  tauto

/-- The flip pass leaves a row alone or merely un-currents it. -/
theorem flipOne_cases (t r : TransRec) :
    flipOne t r = r ∨ flipOne t r = { r with is_current := false } := by
  unfold flipOne
  split
  · exact Or.inr rfl
  · exact Or.inl rfl

/-- After the flip pass, a row with an id different from the saved row's is
never current for the saved target. -/
theorem not_isCurFor_flip_target (t r : TransRec) (hid : r.id ≠ t.id) :
    isCurFor (targetOf t) (flipOne t r) = false := by
  have h := flipOne_not_current_for_target t r hid
  unfold isCurFor
  rw [Bool.and_eq_false_iff]
  by_cases hc : (flipOne t r).is_current = true
  · right
    simp only [decide_eq_false_iff_not]
    exact fun htg => h ⟨hc, htg⟩
  · left
    simp [Bool.not_eq_true] at hc
    simp [hc]

/-- A current row is current for its own target. -/
theorem isCurFor_self (t : TransRec) (hcur : t.is_current = true) :
    isCurFor (targetOf t) t = true := by
  unfold isCurFor
  simp [hcur]

/-- Replace-pass after the flip pass: with pairwise distinct ids among which
the saved row's id occurs, the current rows for the saved target are exactly
the saved row. -/
theorem filter_subst_flip (t : TransRec) (hcur : t.is_current = true) :
    ∀ db : List TransRec, idsNodup db →
      db.any (fun r => decide (r.id = t.id)) = true →
      (((db.map (flipOne t)).map (fun r => if r.id = t.id then t else r)).filter
        (isCurFor (targetOf t))) = [t] := by
  intro db
  induction db with
  | nil => intro _ h; simp at h
  | cons r ds ih =>
    intro hnd hany
    have hnd' : idsNodup ds := by
      unfold idsNodup at hnd ⊢
      simp only [List.map_cons, List.nodup_cons] at hnd
      exact hnd.2
    by_cases hr : r.id = t.id
    · have hnotin : ∀ s ∈ ds, s.id ≠ t.id := by
        intro s hs hst
        unfold idsNodup at hnd
        simp only [List.map_cons, List.nodup_cons] at hnd
        exact hnd.1 (hr ▸ hst ▸ List.mem_map_of_mem (fun x => x.id) hs)
      have hhead : flipOne t r = r := flipOne_eq_of_id_eq t r hr
      simp only [List.map_cons, hhead, if_pos hr, List.filter_cons,
        isCurFor_self t hcur]
      rw [if_pos trivial]
      have hF : ((ds.map (flipOne t)).map (fun r => if r.id = t.id then t else r)).filter
          (isCurFor (targetOf t)) = [] := by
        rw [List.filter_eq_nil_iff]
        intro a ha
        simp only [List.mem_map] at ha
        obtain ⟨b, ⟨s, hs, rfl⟩, rfl⟩ := ha
        have hsid : (flipOne t s).id ≠ t.id := by
          rw [flipOne_id]; exact hnotin s hs
        rw [if_neg hsid,
          not_isCurFor_flip_target t s (by rw [flipOne_id] at hsid; exact hsid)]
        simp
      rw [hF]
    · have hany' : ds.any (fun r => decide (r.id = t.id)) = true := by
        simp only [List.any_cons, decide_eq_true_eq] at hany
        rcases Bool.or_eq_true_iff.mp hany with h | h
        · exact absurd (of_decide_eq_true h) hr
        · exact h
      have hid : (flipOne t r).id ≠ t.id := by rw [flipOne_id]; exact hr
      simp only [List.map_cons, if_neg hid, List.filter_cons,
        not_isCurFor_flip_target t r hr]
      simp only [Bool.false_eq_true, if_false]
      exact ih hnd' hany'

/-- Lemma A: saving a current row makes it the sole current row for its
target — the same save operation un-currents every other row sharing the
target. -/
theorem currentsFor_saveT_self (t : TransRec) (db : List TransRec)
    (hcur : t.is_current = true) (hnd : idsNodup db) :
    currentsFor (saveT t db) (targetOf t) = [t] := by
  unfold saveT
  rw [if_pos hcur]
  unfold upsert currentsFor
  by_cases hex : (unCurrentOthers t db).any (fun r => decide (r.id = t.id)) = true
  · rw [if_pos hex]
    have hex' : db.any (fun r => decide (r.id = t.id)) = true := by
      unfold unCurrentOthers at hex
      rw [List.any_map] at hex
      have heq : ((fun r => decide (r.id = t.id)) ∘ flipOne t)
          = (fun r : TransRec => decide (r.id = t.id)) := by
        funext r
        simp [Function.comp, flipOne_id]
      rwa [heq] at hex
    exact filter_subst_flip t hcur db hnd hex'
  · rw [if_neg hex]
    rw [List.filter_append]
    have h1 : (unCurrentOthers t db).filter (isCurFor (targetOf t)) = [] := by
      rw [List.filter_eq_nil_iff]
      intro a ha
      unfold unCurrentOthers at ha
      simp only [List.mem_map] at ha
      obtain ⟨s, hs, rfl⟩ := ha
      have hsid : s.id ≠ t.id := by
        intro h
        apply hex
        unfold unCurrentOthers
        rw [List.any_map, List.any_eq_true]
        exact ⟨s, hs, by simp [Function.comp, flipOne_id, h]⟩
      rw [not_isCurFor_flip_target t s hsid]
      simp
    rw [h1, List.nil_append, List.filter_cons, isCurFor_self t hcur]
    rfl

/-- The replace pass of `upsert` preserves the id column. -/
theorem subst_map_id (t : TransRec) (l : List TransRec) :
    (l.map (fun r => if r.id = t.id then t else r)).map (fun r => r.id)
      = l.map (fun r => r.id) := by
  rw [List.map_map]
  refine List.map_congr_left fun r _ => ?_
  by_cases h : r.id = t.id
  · simp [h]
  · simp [h]

/-- Saving preserves pairwise-distinct primary keys. -/
theorem idsNodup_saveT (t : TransRec) (db : List TransRec) (h : idsNodup db) :
    idsNodup (saveT t db) := by
  unfold idsNodup at h ⊢
  unfold saveT upsert
  set l := if t.is_current = true then unCurrentOthers t db else db with hl
  have hids : l.map (fun r => r.id) = db.map (fun r => r.id) := by
    rw [hl]
    split
    · exact unCurrentOthers_map_id t db
    · rfl
  by_cases hex : l.any (fun r => decide (r.id = t.id)) = true
  · rw [if_pos hex, subst_map_id, hids]
    exact h
  · rw [if_neg hex, List.map_append, hids]
    rw [List.nodup_append]
    refine ⟨h, List.nodup_singleton _, ?_⟩
    intro a ha hb
    simp only [List.map_cons, List.map_nil, List.mem_singleton] at hb
    subst hb
    apply hex
    rw [List.any_eq_true]
    have : t.id ∈ l.map (fun r => r.id) := hids ▸ ha
    obtain ⟨r, hr, hrid⟩ := List.mem_map.mp this
    exact ⟨r, hr, by simp [hrid]⟩

/-- A row is never current for a target that is not its own. -/
theorem isCurFor_false_of_ne (g : Nat × Option Nat) (t : TransRec)
    (h : g ≠ targetOf t) : isCurFor g t = false := by
  unfold isCurFor
  rw [Bool.and_eq_false_iff]
  right
  simp only [decide_eq_false_iff_not]
  exact fun he => h he.symm

/-- The flip pass never increases the number of current rows of any target. -/
theorem countP_flip_le (t : TransRec) (g : Nat × Option Nat) (db : List TransRec) :
    (db.map (flipOne t)).countP (isCurFor g) ≤ db.countP (isCurFor g) := by
  rw [List.countP_map]
  refine List.countP_mono_left fun r _ hp => ?_
  rcases flipOne_cases t r with hc | hc
  · rwa [Function.comp_apply, hc] at hp
  · rw [Function.comp_apply, hc] at hp
    unfold isCurFor at hp
    simp at hp

/-- Saving a current row preserves invariant I1 for every target. -/
theorem atMostOne_saveT (t : TransRec) (db : List TransRec)
    (hcur : t.is_current = true) (hnd : idsNodup db)
    (h : AtMostOneCurrent db) : AtMostOneCurrent (saveT t db) := by
  intro g
  by_cases hg : g = targetOf t
  · rw [hg, currentsFor_saveT_self t db hcur hnd]
    simp
  · have hg1 := h g
    unfold currentsFor at hg1 ⊢
    rw [← List.countP_eq_length_filter] at hg1 ⊢
    have hle : (saveT t db).countP (isCurFor g) ≤ db.countP (isCurFor g) := by
      unfold saveT upsert
      rw [if_pos hcur]
      by_cases hex : (unCurrentOthers t db).any (fun r => decide (r.id = t.id)) = true
      · rw [if_pos hex]
        unfold unCurrentOthers
        rw [List.countP_map, List.countP_map]
        refine List.countP_mono_left fun r _ hp => ?_
        rw [Function.comp_apply, Function.comp_apply] at hp
        by_cases hr : (flipOne t r).id = t.id
        · rw [if_pos hr, isCurFor_false_of_ne g t hg] at hp
          exact absurd hp (by simp)
        · rw [if_neg hr] at hp
          rcases flipOne_cases t r with hc | hc
          · rwa [hc] at hp
          · rw [hc] at hp
            unfold isCurFor at hp
            simp at hp
      · rw [if_neg hex, List.countP_append]
        have h2 : List.countP (isCurFor g) [t] = 0 := by
          simp [List.countP_cons, isCurFor_false_of_ne g t hg]
        rw [h2, Nat.add_zero]
        exact countP_flip_le t g db
    exact le_trans hle hg1

/-- A save sequence preserves pairwise-distinct primary keys. -/
theorem idsNodup_applySaves (ts : List TransRec) :
    ∀ db : List TransRec, idsNodup db → idsNodup (applySaves ts db) := by
  induction ts with
  | nil => intro db h; exact h
  | cons t ts ih =>
    intro db h
    exact ih (saveT t db) (idsNodup_saveT t db h)

/-- A sequence of current-row saves preserves invariant I1 for every
target. -/
theorem atMostOne_applySaves (ts : List TransRec) :
    ∀ db : List TransRec, idsNodup db → AtMostOneCurrent db →
      (∀ t ∈ ts, t.is_current = true) → AtMostOneCurrent (applySaves ts db) := by
  induction ts with
  | nil => intro db _ h _; exact h
  | cons t ts ih =>
    intro db hnd hamo hcur
    exact ih (saveT t db) (idsNodup_saveT t db hnd)
      (atMostOne_saveT t db (hcur t (List.mem_cons_self t ts)) hnd hamo)
      (fun s hs => hcur s (List.mem_cons_of_mem _ hs))

/-- Peeling the last save off a prefix of a save sequence. -/
theorem applySaves_take_succ (ts : List TransRec) (db : List TransRec)
    (i : Nat) (h : i < ts.length) :
    applySaves (ts.take (i + 1)) db
      = saveT (ts.get ⟨i, h⟩) (applySaves (ts.take i) db) := by
  rw [List.take_succ]
  unfold applySaves
  rw [List.foldl_append]
  rw [List.getElem?_eq_getElem h]
  rfl

/-- C2: for every target, along any sequence of saves of current
transcriptions, at most one transcription per target is current after each
save (first clause, starting from any state satisfying I1 with distinct
primary keys); moreover, immediately after each save the saved row is the
*sole* current row for its target — the save un-currented every other row
sharing that target in the same operation (second clause). -/
theorem c2_current_uniqueness :
    (∀ (ts db : List TransRec), idsNodup db → AtMostOneCurrent db →
        (∀ t ∈ ts, t.is_current = true) →
        ∀ n, AtMostOneCurrent (applySaves (ts.take n) db)) ∧
      (∀ (ts db : List TransRec), idsNodup db →
        (∀ t ∈ ts, t.is_current = true) →
        ∀ i (h : i < ts.length),
          currentsFor (applySaves (ts.take (i + 1)) db) (targetOf (ts.get ⟨i, h⟩))
            = [ts.get ⟨i, h⟩]) := by
  constructor
  · intro ts db hnd hamo hcur n
    exact atMostOne_applySaves (ts.take n) db hnd hamo
      (fun t ht => hcur t (List.take_subset n ts ht))
  · intro ts db hnd hcur i h
    rw [applySaves_take_succ ts db i h]
    exact currentsFor_saveT_self _ _ (hcur _ (ts.get_mem i h))
      (idsNodup_applySaves _ _ hnd)

/-- A concrete full-image transcription row used by the C2 witness. -/
def wSave1 : TransRec :=
  { id := 1, image := 7, annot := none,
    transcription_type := "full_image".data, api_endpoint := "openai".data,
    api_model := [], status := "completed".data, text_content := "a".data,
    error_message := [], version := 1, is_current := true,
    parent_transcription := none, created_by := 3 }

/-- A second current row for the same target, saved after `wSave1`. -/
def wSave2 : TransRec :=
  { wSave1 with id := 2, text_content := "b".data }

/-- C2 witness: two successive current saves for the same (image, null)
target, starting from the empty store; after the second save the second row
is the sole current row for the target. -/
theorem c2_current_uniqueness_witness :
    currentsFor (applySaves ([wSave1, wSave2].take (1 + 1)) [])
        (targetOf ([wSave1, wSave2].get ⟨1, by decide⟩))
      = [[wSave1, wSave2].get ⟨1, by decide⟩] :=
  c2_current_uniqueness.2 [wSave1, wSave2] [] (by simp [idsNodup])
    (by decide) 1 (by decide)

/-! ## OCR backend result shape (`OCRService`, `services.py`)

Every backend method returns a dict `{text, metadata, confidence,
raw_response}`; the orchestrating views read `text` and `confidence` from
it. A raised exception is embedded as `Except.error` carrying `str(e)`. -/
structure OCRResult where
  text : PyStr
  metadata : List (PyStr × PyStr)
  confidence : Option ℚ
deriving Repr, DecidableEq

/-! ## View-level orchestration (`views.py`) -/

/-- `Transcription.objects.create(...)` in `TranscribeImageView.post`: the
fields not passed take the model defaults (`version = 1`,
`is_current = True`, empty text/error, no parent). -/
def transcribeImageCreate (newId img user : Nat) (endpoint model : PyStr) : TransRec :=
  { id := newId, image := img, annot := none,
    transcription_type := "full_image".data, api_endpoint := endpoint,
    api_model := model, status := "processing".data, text_content := [],
    error_message := [], version := 1, is_current := true,
    parent_transcription := none, created_by := user }

/-- `Transcription.objects.create(...)` in `TranscribeAnnotationView.post`:
as above but targeting the annotation (`image=annotation.image`,
`annotation=annotation`, `transcription_type='annotation'`). -/
def transcribeAnnotCreate (newId img annId user : Nat) (endpoint model : PyStr) :
    TransRec :=
  { transcribeImageCreate newId img user endpoint model with
    annot := some annId, transcription_type := "annotation".data }

/-- `TranscribeImageView.post` after validation: create the `processing`
row (which saves, flipping other current rows of the target), run the OCR
call, then save the row as `completed` with the result text, or as `failed`
with `error_message = str(e)` when the call raises. Returns the final store
and whether the request succeeded. -/
def transcribeImageFlow (newId img user : Nat) (endpoint model : PyStr)
    (ocr : Except PyStr OCRResult) (db : List TransRec) : List TransRec × Bool :=
  let t0 := transcribeImageCreate newId img user endpoint model
  let db1 := saveT t0 db
  match ocr with
  | .ok res =>
    (saveT { t0 with status := "completed".data, text_content := res.text } db1, true)
  | .error e =>
    (saveT { t0 with status := "failed".data, error_message := e } db1, false)

/-- `TranscribeAnnotationView.post` after validation, same structure as the
full-image flow but with the annotation-scoped created row. -/
def transcribeAnnotFlow (newId img annId user : Nat) (endpoint model : PyStr)
    (ocr : Except PyStr OCRResult) (db : List TransRec) : List TransRec × Bool :=
  let t0 := transcribeAnnotCreate newId img annId user endpoint model
  let db1 := saveT t0 db
  match ocr with
  | .ok res =>
    (saveT { t0 with status := "completed".data, text_content := res.text } db1, true)
  | .error e =>
    (saveT { t0 with status := "failed".data, error_message := e } db1, false)

/-- `RevertTranscriptionView.post`: `Transcription.objects.create` copying
the reverted row's content, with `parent_transcription` the reverted row's
id; `version` and `is_current` are not passed, so they take the model
defaults `1` and `True`. -/
def revertTranscriptionCreate (newId : Nat) (t : TransRec) (user : Nat) : TransRec :=
  { id := newId, image := t.image, annot := t.annot,
    transcription_type := t.transcription_type, api_endpoint := t.api_endpoint,
    api_model := t.api_model, status := "completed".data,
    text_content := t.text_content, error_message := [],
    version := 1, is_current := true, parent_transcription := some t.id,
    created_by := user }

/-- The store effect of the revert endpoint: creating the new row saves it
(un-currenting the target's other current rows). -/
def revertOp (db : List TransRec) (t : TransRec) (newId user : Nat) : List TransRec :=
  saveT (revertTranscriptionCreate newId t user) db

/-- The claims' "max existing version for a target". -/
def maxVersionFor (db : List TransRec) (tgt : Nat × Option Nat) : Nat :=
  ((db.filter (fun r => decide (targetOf r = tgt))).map (fun r => r.version)).foldl
    max 0

/-- First full-image transcription created for image 7. -/
def c3row1 : TransRec := transcribeImageCreate 1 7 3 "openai".data []

/-- Second full-image transcription created for image 7, after the first. -/
def c3row2 : TransRec := transcribeImageCreate 2 7 3 "openai".data []

/-- C3: version allocation is broken in the source. No code path computes
`max existing version + 1`: `Transcription.objects.create` is always called
without a `version` argument, so every row gets the model default `1`. Two
successive creations for the same target both carry version 1 — the second
does not get `max + 1 = 2` and versions are not strictly increasing in
creation order. -/
theorem c3_version_allocation_bug :
    c3row1.version = 1 ∧
      c3row2.version = 1 ∧
      maxVersionFor (saveT c3row1 []) (7, none) + 1 = 2 ∧
      c3row2.version ≠ maxVersionFor (saveT c3row1 []) (7, none) + 1 ∧
      (applySaves [c3row1, c3row2] []).map (fun r => r.version) = [1, 1] ∧
      ¬c3row1.version < c3row2.version := by
  decide

/-- A completed historical transcription (not current) for image 7. -/
def c4old : TransRec :=
  { id := 1, image := 7, annot := none, transcription_type := "full_image".data,
    api_endpoint := "openai".data, api_model := [], status := "completed".data,
    text_content := "Old".data, error_message := [], version := 1,
    is_current := false, parent_transcription := none, created_by := 3 }

/-- The target's current transcription at the time of the revert. -/
def c4cur : TransRec :=
  { c4old with id := 2, text_content := "New".data, is_current := true }

/-- The row the revert endpoint creates for `c4old`. -/
def c4new : TransRec := revertTranscriptionCreate 5 c4old 3

/-- C4: the frame part of the claim holds on the code — revert only appends
one new row (content copied, `parent_transcription` the reverted row's id,
`is_current = true`), leaves the reverted row untouched and changes the
other pre-existing row only by the I1 `is_current` flip — but the new row's
version is the model default 1, not `max + 1 = 2`: the version-allocation
part of the claim fails on the code. -/
theorem c4_revert_version_bug :
    c4new.parent_transcription = some c4old.id ∧
      c4new.is_current = true ∧
      c4new.text_content = c4old.text_content ∧
      revertOp [c4old, c4cur] c4old 5 3
        = [c4old, { c4cur with is_current := false }, c4new] ∧
      maxVersionFor [c4old, c4cur] (targetOf c4old) + 1 = 2 ∧
      c4new.version = 1 ∧
      c4new.version ≠ maxVersionFor [c4old, c4cur] (targetOf c4old) + 1 := by
  decide

/-- The replace pass of `upsert` finds the saved row by its id. -/
theorem find?_id_map_subst (t : TransRec) :
    ∀ l : List TransRec, l.any (fun r => decide (r.id = t.id)) = true →
      (l.map (fun r => if r.id = t.id then t else r)).find?
        (fun r => decide (r.id = t.id)) = some t := by
  intro l
  induction l with
  | nil => intro h; simp at h
  | cons r ds ih =>
    intro hany
    by_cases h : r.id = t.id
    · simp only [List.map_cons, if_pos h]
      exact List.find?_cons_of_pos _ (by simp)
    · simp only [List.map_cons, if_neg h]
      rw [List.find?_cons_of_neg _ (by simp [h])]
      apply ih
      simp only [List.any_cons, decide_eq_true_eq] at hany
      rcases Bool.or_eq_true_iff.mp hany with hh | hh
      · exact absurd (of_decide_eq_true hh) h
      · exact hh

/-- An appended row with a fresh id is found by its id. -/
theorem find?_id_append_right (l : List TransRec) (t : TransRec)
    (h : ∀ r ∈ l, r.id ≠ t.id) :
    (l ++ [t]).find? (fun r => decide (r.id = t.id)) = some t := by
  induction l with
  | nil => exact List.find?_cons_of_pos _ (by simp)
  | cons r ds ih =>
    rw [List.cons_append,
      List.find?_cons_of_neg _ (by simp [h r (List.mem_cons_self r ds)])]
    exact ih fun s hs => h s (List.mem_cons_of_mem _ hs)

/-- Saving a row makes it the row found by its id. -/
theorem findRec_saveT (t : TransRec) (db : List TransRec) :
    findRec (saveT t db) t.id = some t := by
  unfold saveT upsert findRec
  set l := if t.is_current = true then unCurrentOthers t db else db with hl
  by_cases hex : l.any (fun r => decide (r.id = t.id)) = true
  · rw [if_pos hex]
    exact find?_id_map_subst t l hex
  · rw [if_neg hex]
    apply find?_id_append_right
    intro r hr heq
    apply hex
    rw [List.any_eq_true]
    exact ⟨r, hr, by simp [heq]⟩

/-- Looking up a different id after a current-row save sees exactly the
flip pass applied to the previous row of that id. -/
theorem findRec_saveT_other (t : TransRec) (db : List TransRec) (i : Nat)
    (hi : i ≠ t.id) (hcur : t.is_current = true) :
    findRec (saveT t db) i = (findRec db i).map (flipOne t) := by
  unfold saveT
  rw [if_pos hcur]
  unfold upsert findRec unCurrentOthers
  by_cases hex : (db.map (flipOne t)).any (fun r => decide (r.id = t.id)) = true
  · rw [if_pos hex, List.map_map, List.find?_map]
    have hp : ((fun r => decide (r.id = i)) ∘
        ((fun r => if r.id = t.id then t else r) ∘ flipOne t))
          = (fun r : TransRec => decide (r.id = i)) := by
      funext r
      simp only [Function.comp_apply]
      by_cases h : (flipOne t r).id = t.id
      · have he : (if (flipOne t r).id = t.id then t else flipOne t r) = t := if_pos h
        simp only [he]
        have hrid : r.id = t.id := by rw [← flipOne_id t r]; exact h
        have h1 : ¬(t.id = i) := fun hh => hi hh.symm
        have h2 : ¬(r.id = i) := fun hh => hi (by rw [← hh, hrid])
        simp [h1, h2]
      · have hrne : ¬(r.id = t.id) := by
          rw [← flipOne_id t r]; exact h
        simp [hrne, flipOne_id]
    rw [hp]
    cases hf : db.find? (fun r => decide (r.id = i)) with
    | none => rfl
    | some r0 =>
      have hr0 : r0.id = i := by
        have hfs := List.find?_some hf
        simpa using hfs
      rw [Option.map_some', Option.map_some']
      have hne : (flipOne t r0).id ≠ t.id := by
        rw [flipOne_id, hr0]; exact hi
      rw [Function.comp_apply, if_neg hne]
  · rw [if_neg hex, List.find?_append, List.find?_map]
    have hp : ((fun r => decide (r.id = i)) ∘ flipOne t)
        = (fun r : TransRec => decide (r.id = i)) := by
      funext r
      simp [Function.comp, flipOne_id]
    rw [hp]
    cases hf : db.find? (fun r => decide (r.id = i)) with
    | some r0 => rfl
    | none =>
      have h1 : ¬(t.id = i) := fun h => hi h.symm
      simp [Option.orElse, List.find?, h1]

/-- Looking up a member by its id under distinct primary keys. -/
theorem findRec_mem (db : List TransRec) (p : TransRec)
    (hnd : idsNodup db) (hmem : p ∈ db) : findRec db p.id = some p := by
  induction db with
  | nil => cases hmem
  | cons r ds ih =>
    unfold idsNodup at hnd
    simp only [List.map_cons, List.nodup_cons] at hnd
    rcases List.mem_cons.mp hmem with rfl | hmem'
    · exact List.find?_cons_of_pos _ (by simp)
    · unfold findRec
      rw [List.find?_cons_of_neg _ ?_]
      · exact ih hnd.2 hmem'
      · simp only [decide_eq_true_eq]
        intro h
        exact hnd.1 (h ▸ List.mem_map_of_mem (fun x => x.id) hmem')

/-- C9: whenever the OCR backend call raises, both the transcribe-image and
transcribe-annotation flows save the created row with status `failed` and
`error_message` set to the raised message; and on every path (success or
failure) the created row's final status is never `processing`. -/
theorem c9_failed_never_processing :
    ∀ (newId img annId user : Nat) (endpoint model e : PyStr)
      (db : List TransRec) (ocr : Except PyStr OCRResult),
      (findRec (transcribeImageFlow newId img user endpoint model (.error e) db).1 newId
        = some { transcribeImageCreate newId img user endpoint model with
                 status := "failed".data, error_message := e }) ∧
      (findRec (transcribeAnnotFlow newId img annId user endpoint model (.error e) db).1 newId
        = some { transcribeAnnotCreate newId img annId user endpoint model with
                 status := "failed".data, error_message := e }) ∧
      ((findRec (transcribeImageFlow newId img user endpoint model ocr db).1 newId).map
          (fun r => r.status) ≠ some "processing".data) ∧
      ((findRec (transcribeAnnotFlow newId img annId user endpoint model ocr db).1 newId).map
          (fun r => r.status) ≠ some "processing".data) := by
  intro newId img annId user endpoint model e db ocr
  refine ⟨?_, ?_, ?_, ?_⟩
  · exact findRec_saveT _ _
  · exact findRec_saveT _ _
  · cases ocr with
    | ok res =>
      have h : findRec (transcribeImageFlow newId img user endpoint model (.ok res) db).1 newId
          = some { transcribeImageCreate newId img user endpoint model with
                   status := "completed".data, text_content := res.text } :=
        findRec_saveT _ _
      rw [h]
      simp only [Option.map_some', ne_eq, Option.some.injEq]
      decide
    | error e' =>
      have h : findRec (transcribeImageFlow newId img user endpoint model (.error e') db).1 newId
          = some { transcribeImageCreate newId img user endpoint model with
                   status := "failed".data, error_message := e' } :=
        findRec_saveT _ _
      rw [h]
      simp only [Option.map_some', ne_eq, Option.some.injEq]
      decide
  · cases ocr with
    | ok res =>
      have h : findRec (transcribeAnnotFlow newId img annId user endpoint model (.ok res) db).1 newId
          = some { transcribeAnnotCreate newId img annId user endpoint model with
                   status := "completed".data, text_content := res.text } :=
        findRec_saveT _ _
      rw [h]
      simp only [Option.map_some', ne_eq, Option.some.injEq]
      decide
    | error e' =>
      have h : findRec (transcribeAnnotFlow newId img annId user endpoint model (.error e') db).1 newId
          = some { transcribeAnnotCreate newId img annId user endpoint model with
                   status := "failed".data, error_message := e' } :=
        findRec_saveT _ _
      rw [h]
      simp only [Option.map_some', ne_eq, Option.some.injEq]
      decide

/-- C10: the rows created by the transcribe flows carry the model default
`is_current = true` and are saved (flipping other currents) before the OCR
call; consequently, when the call fails, the failed row is the sole current
row of its target and the previously current row has been un-currented —
the error path does not restore it. -/
theorem c10_error_path_un_currents :
    ∀ (newId img annId user : Nat) (endpoint model e : PyStr)
      (db : List TransRec) (p : TransRec),
      idsNodup db → p ∈ db → p.is_current = true → p.id ≠ newId →
      ((transcribeImageCreate newId img user endpoint model).is_current = true ∧
        (transcribeAnnotCreate newId img annId user endpoint model).is_current = true) ∧
      (targetOf p = (img, none) →
        currentsFor (transcribeImageFlow newId img user endpoint model (.error e) db).1
            (img, none)
          = [{ transcribeImageCreate newId img user endpoint model with
               status := "failed".data, error_message := e }] ∧
        findRec (transcribeImageFlow newId img user endpoint model (.error e) db).1 p.id
          = some { p with is_current := false }) ∧
      (targetOf p = (img, some annId) →
        currentsFor (transcribeAnnotFlow newId img annId user endpoint model (.error e) db).1
            (img, some annId)
          = [{ transcribeAnnotCreate newId img annId user endpoint model with
               status := "failed".data, error_message := e }] ∧
        findRec (transcribeAnnotFlow newId img annId user endpoint model (.error e) db).1 p.id
          = some { p with is_current := false }) := by
  intro newId img annId user endpoint model e db p hnd hmem hpcur hpid
  refine ⟨⟨rfl, rfl⟩, ?_, ?_⟩
  · intro htg
    have hpim : p.image = img := congrArg Prod.fst htg
    have hpan : p.annot = none := congrArg Prod.snd htg
    constructor
    · exact currentsFor_saveT_self _ _ rfl (idsNodup_saveT _ _ hnd)
    · set t0 := transcribeImageCreate newId img user endpoint model with ht0
      have hflip0 : flipOne t0 p = { p with is_current := false } := by
        unfold flipOne
        rw [if_pos]
        refine ⟨hpid, ?_, hpcur⟩
        unfold matchesTargetQuery
        simp [ht0, transcribeImageCreate, hpim, hpan]
      have h1 : findRec (saveT t0 db) p.id = some { p with is_current := false } := by
        rw [findRec_saveT_other t0 db p.id hpid rfl, findRec_mem db p hnd hmem,
          Option.map_some', hflip0]
      show findRec (saveT { t0 with status := "failed".data, error_message := e }
        (saveT t0 db)) p.id = some { p with is_current := false }
      rw [findRec_saveT_other _ _ p.id hpid rfl, h1, Option.map_some']
      have : flipOne { t0 with status := "failed".data, error_message := e }
          { p with is_current := false } = { p with is_current := false } := by
        unfold flipOne
        rw [if_neg]
        rintro ⟨-, -, hcc⟩
        simp at hcc
      rw [this]
  · intro htg
    have hpim : p.image = img := congrArg Prod.fst htg
    have hpan : p.annot = some annId := congrArg Prod.snd htg
    constructor
    · exact currentsFor_saveT_self _ _ rfl (idsNodup_saveT _ _ hnd)
    · set t0 := transcribeAnnotCreate newId img annId user endpoint model with ht0
      have hflip0 : flipOne t0 p = { p with is_current := false } := by
        unfold flipOne
        rw [if_pos]
        refine ⟨hpid, ?_, hpcur⟩
        unfold matchesTargetQuery
        simp [ht0, transcribeAnnotCreate, transcribeImageCreate, hpan]
      have h1 : findRec (saveT t0 db) p.id = some { p with is_current := false } := by
        rw [findRec_saveT_other t0 db p.id hpid rfl, findRec_mem db p hnd hmem,
          Option.map_some', hflip0]
      show findRec (saveT { t0 with status := "failed".data, error_message := e }
        (saveT t0 db)) p.id = some { p with is_current := false }
      rw [findRec_saveT_other _ _ p.id hpid rfl, h1, Option.map_some']
      have : flipOne { t0 with status := "failed".data, error_message := e }
          { p with is_current := false } = { p with is_current := false } := by
        unfold flipOne
        rw [if_neg]
        rintro ⟨-, -, hcc⟩
        simp at hcc
      rw [this]

/-- The previously current completed transcription used by the C10 witness. -/
def c10prev : TransRec :=
  { id := 1, image := 7, annot := none, transcription_type := "full_image".data,
    api_endpoint := "openai".data, api_model := [], status := "completed".data,
    text_content := "done".data, error_message := [], version := 1,
    is_current := true, parent_transcription := none, created_by := 3 }

/-- C10 witness: a failed transcribe-image call over a store holding one
current completed row for the target; the failed row ends sole current and
the previous row is un-currented. -/
theorem c10_error_path_un_currents_witness :
    currentsFor
        (transcribeImageFlow 2 7 3 "openai".data [] (.error "boom".data) [c10prev]).1
        (7, none)
      = [{ transcribeImageCreate 2 7 3 "openai".data [] with
           status := "failed".data, error_message := "boom".data }] ∧
      findRec
        (transcribeImageFlow 2 7 3 "openai".data [] (.error "boom".data) [c10prev]).1
        c10prev.id
      = some { c10prev with is_current := false } :=
  (c10_error_path_un_currents 2 7 4 3 "openai".data [] "boom".data [c10prev] c10prev
    (by simp [idsNodup]) (by decide) (by decide) (by decide)).2.1 (by decide)

/-! ## Region extraction (`OCRService._extract_annotation_region`)

For a bbox annotation the source reads `x, y, width, height` from
`annotation.coordinates` and calls `image.crop((x, y, x + width, y + height))`.
Coordinates are embedded as integers (the claim's inputs are integral, and
all arithmetic involved is exact). -/

/-- A crop rectangle in PIL's `(left, upper, right, lower)` convention. -/
structure CropBox where
  left : Int
  upper : Int
  right : Int
  lower : Int
deriving Repr, DecidableEq

/-- The crop box the bbox branch of `_extract_annotation_region` passes to
`image.crop`: `(x, y, x + width, y + height)`. -/
def bboxCropBox (x y width height : Int) : CropBox :=
  ⟨x, y, x + width, y + height⟩

/-- PIL `Image.crop` contract (Pillow documentation): the returned region
has exactly the requested rectangle's size `(right - left, lower - upper)`;
portions of the rectangle lying outside the source image are padded with
fill rather than clipped, and no exception is raised. -/
def cropRegionSize (b : CropBox) : Int × Int :=
  (b.right - b.left, b.lower - b.upper)

/-- The rectangle the claim describes: `[x, y, x+width, y+height]` clipped
to the image bounds (modelled from the spec's words, for comparison with
the source's unclipped box). -/
def clippedCropBox (x y width height iw ih : Int) : CropBox :=
  ⟨max 0 x, max 0 y, min (x + width) iw, min (y + height) ih⟩

/-- C6 counterexample: for the claim's own example — bbox
`{x:-10, y:5, width:50, height:50}` on a 40×100 image — the source crops
the unclipped rectangle spanning x from -10 to 40 and the extracted region
is 50 wide, not the 40-wide region clipped to x ∈ [0,40) that the claim
requires. -/
theorem c6_counterexample :
    bboxCropBox (-10) 5 50 50 = ⟨-10, 5, 40, 55⟩ ∧
      cropRegionSize (bboxCropBox (-10) 5 50 50) = (50, 50) ∧
      clippedCropBox (-10) 5 50 50 40 100 = ⟨0, 5, 40, 55⟩ ∧
      bboxCropBox (-10) 5 50 50 ≠ clippedCropBox (-10) 5 50 50 40 100 ∧
      (cropRegionSize (bboxCropBox (-10) 5 50 50)).1
        ≠ (cropRegionSize (clippedCropBox (-10) 5 50 50 40 100)).1 := by
  decide

/-- C6 (amended): for every bbox annotation, region extraction crops exactly
the rectangle `[x, y, x+width, y+height]`, performing no clipping to the
image bounds; the crop itself never fails on out-of-bounds rectangles (PIL
pads the outside area), so the extracted region always has size
`(width, height)` regardless of the image dimensions. -/
theorem c6_bbox_crop_unclipped :
    ∀ x y width height : Int,
      bboxCropBox x y width height = ⟨x, y, x + width, y + height⟩ ∧
        cropRegionSize (bboxCropBox x y width height) = (width, height) := by
  intro x y width height
  refine ⟨rfl, ?_⟩
  unfold cropRegionSize bboxCropBox
  simp

/-! ## OpenAI response handling (`OCRService._transcribe_with_openai`)

After a 200 response, the source reads `result['choices'][0]['message']
['content']` and, in structured-output mode, attempts `json.loads(content)`
with a fallback to the raw content on `JSONDecodeError`. The decoded HTTP
body is embedded as the list of choice content strings; `json.loads` is
embedded as a caller-supplied partial parse function. -/

/-- The part of the decoded chat-completions body the source reads: the
`content` string of each choice's message (absent `choices` ↦ empty list). -/
structure OpenAIResponse where
  choices : List PyStr
deriving Repr, DecidableEq

/-- A successful `json.loads(content)` outcome, reduced to the fields the
source reads: `parsed_content.get('text', '')` and
`parsed_content.get('metadata', {})`. -/
structure ParsedStructured where
  text : Option PyStr
  metadata : Option (List (PyStr × PyStr))
deriving Repr, DecidableEq

/-- Python truthiness of the `metadata_schema` argument: present and
non-empty. -/
def schemaTruthy : Option (List (PyStr × PyStr)) → Bool
  | none => false
  | some s => decide (s ≠ [])

/-- The text/metadata extraction of `_transcribe_with_openai`: start from
empty text and metadata; with a non-empty choice list take its first
content; in structured-output mode parse it as JSON, falling back to the
raw content (with metadata left empty) when parsing fails; otherwise use
the raw content. Confidence is always `None` for this backend. -/
def transcribeWithOpenAIExtract (use_structured_output : Bool)
    (metadata_schema : Option (List (PyStr × PyStr)))
    (loads : PyStr → Option ParsedStructured)
    (resp : OpenAIResponse) : OCRResult :=
  match resp.choices with
  | [] => { text := [], metadata := [], confidence := none }
  | content :: _ =>
    if use_structured_output && schemaTruthy metadata_schema then
      match loads content with
      | some parsed =>
        { text := parsed.text.getD [], metadata := parsed.metadata.getD [],
          confidence := none }
      | none => { text := content, metadata := [], confidence := none }
    else { text := content, metadata := [], confidence := none }

/-- C7: in structured-output mode (schema supplied), when the returned
content does not parse as JSON, the call still returns a result whose text
is the raw content and whose metadata is empty — the extraction is a total
function, no error is raised. -/
theorem c7_structured_fallback :
    ∀ (loads : PyStr → Option ParsedStructured) (schema : List (PyStr × PyStr))
      (content : PyStr) (rest : List PyStr),
      schema ≠ [] → loads content = none →
      transcribeWithOpenAIExtract true (some schema) loads ⟨content :: rest⟩
        = { text := content, metadata := [], confidence := none } := by
  intro loads schema content rest hs hl
  unfold transcribeWithOpenAIExtract
  have ht : schemaTruthy (some schema) = true := by
    simp [schemaTruthy, hs]
  rw [ht, Bool.and_true]
  simp only [if_pos rfl]
  rw [hl]
  rw [if_pos trivial]

/-- C7 witness: a one-entry schema and a parse function failing on the
content `"not json"`. -/
theorem c7_structured_fallback_witness :
    ([("type".data, "object".data)] : List (PyStr × PyStr)) ≠ [] ∧
      transcribeWithOpenAIExtract true (some [("type".data, "object".data)])
          (fun _ => none) ⟨["not json".data]⟩
        = { text := "not json".data, metadata := [], confidence := none } :=
  ⟨by decide,
   c7_structured_fallback (fun _ => none) [("type".data, "object".data)]
     "not json".data [] (by decide) rfl⟩

/-! ## Detection normalizer (`RoboflowDetectionService._parse_roboflow_results`)

Each prediction arrives in center-coordinate form; the source converts to
top-left and builds the stored coordinates with `max`/`min` clamps. Python
float arithmetic is embedded as exact rational arithmetic. -/

/-- One Roboflow prediction, as read by the source
(`prediction.get('x'|'y'|'width'|'height'|'class'|'confidence')`). -/
structure RoboPrediction where
  x : ℚ
  y : ℚ
  width : ℚ
  height : ℚ
  classification : PyStr
  confidence : ℚ
deriving Repr, DecidableEq

/-- A stored bbox with rational coordinates. -/
structure BBoxQ where
  x : ℚ
  y : ℚ
  width : ℚ
  height : ℚ
deriving Repr, DecidableEq

/-- The coordinate normalization of `_parse_roboflow_results`:
`x = x_center - width/2`, `y = y_center - height/2`, then the stored dict
`{x: max(0, x), y: max(0, y), width: min(width, image_width - x),
height: min(height, image_height - y)}` — note the clamps of `width` and
`height` use the *unclipped* `x` and `y`. -/
def parseDetectionCoords (p : RoboPrediction) (image_width image_height : ℚ) :
    BBoxQ :=
  let x := p.x - p.width / 2
  let y := p.y - p.height / 2
  { x := max 0 x, y := max 0 y,
    width := min p.width (image_width - x),
    height := min p.height (image_height - y) }

/-- C8 counterexample: the detection centered at (15, 30) with size 50×50 on
a 40×100 image converts to unclipped top-left (-10, 5); the stored box gets
`x = 0` but `width = min(50, 40 - (-10)) = 50`, so its right edge reaches
50 > 40 — the resulting box is not clipped to `[0, image_width]`. -/
theorem c8_counterexample :
    (parseDetectionCoords ⟨15, 30, 50, 50, "stamp".data, 9/10⟩ 40 100).x = 0 ∧
      (parseDetectionCoords ⟨15, 30, 50, 50, "stamp".data, 9/10⟩ 40 100).width = 50 ∧
      ¬((parseDetectionCoords ⟨15, 30, 50, 50, "stamp".data, 9/10⟩ 40 100).x
          + (parseDetectionCoords ⟨15, 30, 50, 50, "stamp".data, 9/10⟩ 40 100).width
        ≤ 40) := by
  refine ⟨?_, ?_, ?_⟩ <;> norm_num [parseDetectionCoords]

/-- C8 (amended): normalization converts each detection to top-left form
`x = x_center - width/2`, `y = y_center - height/2` and clamps the stored
fields as `x' = max(0,x)`, `y' = max(0,y)`, `width' = min(width, iw - x)`,
`height' = min(height, ih - y)` with the clamps computed from the unclipped
top-left; the resulting box lies within `[0, iw] × [0, ih]` whenever the
unclipped top-left is nonnegative (in particular the clip claim fails only
for boxes extending past the left or top edge). -/
theorem c8_clip_within_bounds :
    ∀ (p : RoboPrediction) (iw ih : ℚ),
      (parseDetectionCoords p iw ih
          = { x := max 0 (p.x - p.width / 2), y := max 0 (p.y - p.height / 2),
              width := min p.width (iw - (p.x - p.width / 2)),
              height := min p.height (ih - (p.y - p.height / 2)) }) ∧
        (0 ≤ p.x - p.width / 2 → 0 ≤ p.y - p.height / 2 →
          0 ≤ (parseDetectionCoords p iw ih).x ∧
            (parseDetectionCoords p iw ih).x + (parseDetectionCoords p iw ih).width
              ≤ iw ∧
            0 ≤ (parseDetectionCoords p iw ih).y ∧
            (parseDetectionCoords p iw ih).y + (parseDetectionCoords p iw ih).height
              ≤ ih) := by
  intro p iw ih
  refine ⟨rfl, fun hx hy => ?_⟩
  unfold parseDetectionCoords
  simp only [max_eq_right hx, max_eq_right hy]
  refine ⟨hx, ?_, hy, ?_⟩
  · have h1 : min p.width (iw - (p.x - p.width / 2)) ≤ iw - (p.x - p.width / 2) :=
      min_le_right _ _
    linarith
  · have h2 : min p.height (ih - (p.y - p.height / 2)) ≤ ih - (p.y - p.height / 2) :=
      min_le_right _ _
    linarith

/-- C8 witness: a detection centered at (30, 30) with size 20×20 on a 40×100
image; the unclipped top-left (20, 20) is nonnegative and the clipped box
stays within bounds. -/
theorem c8_clip_within_bounds_witness :
    (0 ≤ (30 : ℚ) - 20 / 2 ∧ 0 ≤ (30 : ℚ) - 20 / 2) ∧
      ((parseDetectionCoords ⟨30, 30, 20, 20, "stamp".data, 1⟩ 40 100).x
            + (parseDetectionCoords ⟨30, 30, 20, 20, "stamp".data, 1⟩ 40 100).width
          ≤ 40) :=
  ⟨⟨by norm_num, by norm_num⟩,
   ((c8_clip_within_bounds ⟨30, 30, 20, 20, "stamp".data, 1⟩ 40 100).2
     (by norm_num) (by norm_num)).2.1⟩

/-! ## PageXML export/import codec
(`ExportService._generate_pagexml_for_image`,
`ImportService._import_annotations_from_pagexml`, `services.py`)

The codec is embedded at the level of one region element, the unit both
functions operate on. A region element is represented by its tag name, its
raw `custom` attribute string, the raw `value` of its metadata
`UserAttribute`, the raw `points` attribute of `Coords`, and the raw text
of each descendant `TextLine`'s `Unicode` node — exactly the data that
the importer reads back. "Raw" means as written in the XML file; the
ElementTree parser decodes character entities, embedded as `xmlUnescape`.
Coordinates are embedded as `Nat` (the data model constrains bbox fields to
be nonnegative, and the claim allows only exact/rounding-free resolution),
so Python's `str()` on them is the decimal printer `natRepr` and `float()`
on the printed form recovers the same value exactly. -/

/-- Decimal printer for `str(n)` on a nonnegative integer (fuel-structural,
fuel `n+1` always suffices). -/
def natReprAux : Nat → Nat → PyStr
  | 0, _ => []
  | fuel + 1, n =>
    if n < 10 then [Nat.digitChar n]
    else natReprAux fuel (n / 10) ++ [Nat.digitChar (n % 10)]

/-- `str(n)` for a nonnegative integer. -/
def natRepr (n : Nat) : PyStr := natReprAux (n + 1) n

/-- `Annotation.coordinates`: bbox dict or polygon point list. -/
inductive Coordinates where
  | bbox (x y width height : Nat)
  | polygon (points : List (Nat × Nat))
deriving Repr, DecidableEq

/-- An `Annotation` row, with the fields the codec round-trips. -/
structure AnnotationRec where
  annotation_type : PyStr
  classification : Option PyStr
  label : PyStr
  reading_order : Nat
  metadata : List (PyStr × PyStr)
  coordinates : Coordinates
deriving Repr, DecidableEq

/-- Python `a.replace(old, new)` for a one-character pattern `old`:
`new.join(a.split(old))`. -/
def pyReplaceWith (old : Char) (new : PyStr) (s : PyStr) : PyStr :=
  List.intercalate new (pySplit old s)

/-- `ExportService._escape_xml`: empty (or `None`) maps to the empty
string, otherwise the five XML special characters are replaced by their
entities, in the source's order (`&` first). -/
def escape_xml (s : PyStr) : PyStr :=
  if s = [] then []
  else
    pyReplaceWith '\'' "&apos;".data
      (pyReplaceWith '"' "&quot;".data
        (pyReplaceWith '>' "&gt;".data
          (pyReplaceWith '<' "&lt;".data
            (pyReplaceWith '&' "&amp;".data s))))

/-- ElementTree's entity decoding on parsed attribute values and text nodes,
fuel-structural (fuel `s.length` always suffices — every step consumes at
least one character): the five standard XML entities are decoded, all other
characters pass through. -/
def xmlUnescapeAux : Nat → PyStr → PyStr
  | 0, s => s
  | _ + 1, [] => []
  | fuel + 1, c :: rest =>
    if c = '&' then
      if "amp;".data.isPrefixOf rest then '&' :: xmlUnescapeAux fuel (rest.drop 4)
      else if "lt;".data.isPrefixOf rest then '<' :: xmlUnescapeAux fuel (rest.drop 3)
      else if "gt;".data.isPrefixOf rest then '>' :: xmlUnescapeAux fuel (rest.drop 3)
      else if "quot;".data.isPrefixOf rest then '"' :: xmlUnescapeAux fuel (rest.drop 5)
      else if "apos;".data.isPrefixOf rest then '\'' :: xmlUnescapeAux fuel (rest.drop 5)
      else c :: xmlUnescapeAux fuel rest
    else c :: xmlUnescapeAux fuel rest

/-- ElementTree's entity decoding. -/
def xmlUnescape (s : PyStr) : PyStr := xmlUnescapeAux s.length s

/-- One region element of the generated PageXML, reduced to the parts that
the importer reads. -/
structure PageRegion where
  tag : PyStr
  custom : PyStr
  userMetadata : Option PyStr
  points_str : PyStr
  textlines : List PyStr
deriving Repr, DecidableEq

/-- The `points` string of a point list: `" ".join(f"{x},{y}")`. The bbox
branch of the exporter writes `f"{x},{y} {x+width},{y} {x+width},{y+height}
{x},{y+height}"`, which is this serialization of the four corner points
clockwise from top-left. -/
def pointsStrOfPoints (ps : List (Nat × Nat)) : PyStr :=
  List.intercalate " ".data (ps.map (fun p => natRepr p.1 ++ ",".data ++ natRepr p.2))

/-- The per-annotation block of `_generate_pagexml_for_image`: region tag
from `PAGEXML_MAPPINGS.get(classification, 'TextRegion')`; the `custom`
attribute string carrying the four custom fields (classification and label
XML-escaped); the metadata `UserAttribute` (present only when the metadata
dict is truthy) carrying `";".join(f"{k}:{escape(str(v))}")`; the corner or
polygon points; and one `TextLine` with the escaped current transcription
text, present only for `TextRegion`/`CustomRegion` regions that have a
current transcription. -/
def exportAnnotationRegion (ann : AnnotationRec) (current_text : Option PyStr) :
    PageRegion :=
  let region_type :=
    match ann.classification with
    | none => "TextRegion".data
    | some c => (PAGEXML_MAPPINGS.lookup c).getD "TextRegion".data
  let annotation_classification :=
    escape_xml (match ann.classification with | none => [] | some c => c)
  let annotation_label := escape_xml ann.label
  let custom :=
    "annotation_type:".data ++ ann.annotation_type
      ++ ";classification:".data ++ annotation_classification
      ++ ";label:".data ++ annotation_label
      ++ ";reading_order:".data ++ natRepr ann.reading_order
  let userMetadata :=
    if ann.metadata ≠ [] then
      some (List.intercalate ";".data (ann.metadata.map
        (fun kv => kv.1 ++ ":".data ++ escape_xml kv.2)))
    else none
  let points_str :=
    match ann.coordinates with
    | .bbox x y w h => pointsStrOfPoints [(x, y), (x + w, y), (x + w, y + h), (x, y + h)]
    | .polygon ps => pointsStrOfPoints ps
  let textlines :=
    if region_type = "TextRegion".data ∨ region_type = "CustomRegion".data then
      match current_text with
      | some txt => [escape_xml txt]
      | none => []
    else []
  ⟨region_type, custom, userMetadata, points_str, textlines⟩

/-- Python `s.split()` (no argument): split on whitespace runs, dropping
empty pieces. -/
def splitWsAux : PyStr → PyStr → List PyStr
  | [], acc => if acc = [] then [] else [acc.reverse]
  | c :: rest, acc =>
    if c.isWhitespace then
      if acc = [] then splitWsAux rest []
      else acc.reverse :: splitWsAux rest []
    else splitWsAux rest (c :: acc)

/-- Python `s.split()`. -/
def pySplitWs (s : PyStr) : List PyStr := splitWsAux s []

/-- The importer's point parsing: `points_str.split()`, then for each piece
containing a comma, `x, y = piece.split(',')` and `float` conversion; a
piece without a comma is skipped. An unpacking or conversion error raises,
embedded as `none` (in the source the exception aborts the whole PageXML
parse). `float` is embedded on the nonnegative-integer strings the exporter
emits. -/
def parsePointsAux : List PyStr → Option (List (Nat × Nat))
  | [] => some []
  | w :: ws =>
    if ',' ∈ w then
      match pySplit ',' w with
      | [a, b] =>
        match pyParseNat a, pyParseNat b with
        | some xa, some yb => (parsePointsAux ws).map (fun r => (xa, yb) :: r)
        | _, _ => none
      | _ => none
    else parsePointsAux ws

/-- Parse a `Coords` points attribute into a point list. -/
def parsePoints (points_str : PyStr) : Option (List (Nat × Nat)) :=
  parsePointsAux (pySplitWs points_str)

/-- The mutable fields the importer's custom-attribute loop assigns. -/
structure CustomFields where
  annotation_type : PyStr
  classification : PyStr
  label : PyStr
  reading_order_val : Nat
deriving Repr, DecidableEq

/-- One iteration of the custom-attribute loop: split the item at the first
colon and assign the recognized key's field; `reading_order` parses the
value as an integer, keeping the old value on failure (`except ValueError:
pass`). -/
def applyCustomItem (f : CustomFields) (item : PyStr) : CustomFields :=
  if ':' ∈ item then
    match pySplitFirst ':' item with
    | some (key, value) =>
      if key = "annotation_type".data then { f with annotation_type := value }
      else if key = "classification".data then { f with classification := value }
      else if key = "label".data then { f with label := value }
      else if key = "reading_order".data then
        match pyParseNat value with
        | some n => { f with reading_order_val := n }
        | none => f
      else f
    | none => f
  else f

/-- The importer's custom-attribute parsing: defaults
`annotation_type = 'polygon'`, `classification = 'text_region'`,
`label = ''`, `reading_order_val` = the running per-image counter; a truthy
`custom` attribute is split on `;` and applied item by item. -/
def parseCustomFields (custom : PyStr) (reading_order : Nat) : CustomFields :=
  let f0 : CustomFields :=
    ⟨"polygon".data, "text_region".data, [], reading_order⟩
  if pyTruthy custom then (pySplit ';' custom).foldl applyCustomItem f0 else f0

/-- Python dict assignment `d[k] = v` on an association list with distinct
keys: replace the existing entry or append a new one. -/
def dictInsert (m : List (PyStr × PyStr)) (k v : PyStr) : List (PyStr × PyStr) :=
  if m.any (fun kv => decide (kv.1 = k)) then
    m.map (fun kv => if kv.1 = k then (k, v) else kv)
  else m ++ [(k, v)]

/-- The importer's metadata parsing: when the metadata `UserAttribute` is
present, split its value on `;` and insert each `key:value` item into the
dict. -/
def parseMetadataFields (userMeta : Option PyStr) : List (PyStr × PyStr) :=
  match userMeta with
  | none => []
  | some s =>
    (pySplit ';' s).foldl
      (fun m item =>
        if ':' ∈ item then
          match pySplitFirst ':' item with
          | some (k, v) => dictInsert m k v
          | none => m
        else m)
      []

/-- Python `min(xs)` on a nonnegative-integer list (the importer calls it
only with at least 3 points). -/
def listMin : List Nat → Nat
  | [] => 0
  | x :: xs => xs.foldl min x

/-- Python `max(xs)`. -/
def listMax : List Nat → Nat
  | [] => 0
  | x :: xs => xs.foldl max x

/-- The per-region body of `_import_annotations_from_pagexml`, applied to a
region whose tag the caller already matched: parse the points (ElementTree
entity-decoded); require at least 3; parse the custom attribute and the
metadata; for `annotation_type = 'bbox'` with at least 4 points collapse
the point list to `{x: min, y: min, width: max-min, height: max-min}`,
otherwise keep the point list; concatenate the truthy `TextLine` texts with
newlines and strip, creating a current annotation-scoped transcription only
when the stripped text is non-empty. `none` covers the skipped-region paths
(fewer than 3 points) and the parse-error path (which in the source aborts
the rest of the PageXML parse). -/
def parsePagexmlRegion (reg : PageRegion) (reading_order : Nat) :
    Option (AnnotationRec × Option PyStr) :=
  match parsePoints (xmlUnescape reg.points_str) with
  | none => none
  | some points =>
    if points.length ≥ 3 then
      let cf := parseCustomFields (xmlUnescape reg.custom) reading_order
      let metadata := parseMetadataFields (reg.userMetadata.map xmlUnescape)
      let coordinates :=
        if cf.annotation_type = "bbox".data ∧ points.length ≥ 4 then
          let xs := points.map Prod.fst
          let ys := points.map Prod.snd
          Coordinates.bbox (listMin xs) (listMin ys)
            (listMax xs - listMin xs) (listMax ys - listMin ys)
        else Coordinates.polygon points
      let ann : AnnotationRec :=
        { annotation_type := cf.annotation_type,
          classification := some cf.classification,
          label := cf.label, reading_order := cf.reading_order_val,
          metadata := metadata, coordinates := coordinates }
      let text_content :=
        reg.textlines.foldl
          (fun acc t => if pyTruthy t then acc ++ xmlUnescape t ++ ['\n'] else acc) []
      let trans :=
        if pyTruthy (pyStrip text_content) then some (pyStrip text_content) else none
      some (ann, trans)
    else none

/-- The region-tag whitelist the importer walks, in its order. -/
def region_types : List PyStr :=
  ["TextRegion".data, "GraphicRegion".data, "ImageRegion".data,
   "LineDrawingRegion".data, "ChartRegion".data, "TableRegion".data,
   "CustomRegion".data]

/-- The per-annotation region list of the generated page (the synthetic
full-page region is emitted only when the image has no annotations, outside
this claim's scenario). -/
def generatePagexmlRegions (anns : List (AnnotationRec × Option PyStr)) :
    List PageRegion :=
  anns.map (fun a => exportAnnotationRegion a.1 a.2)

/-- The importer's page walk: for each whitelisted tag in order, for each
region with that tag, run the per-region import, threading the
reading-order counter (starting at 1, incremented per created
annotation). -/
def importRegionsOfPage (regs : List PageRegion) :
    List (AnnotationRec × Option PyStr) :=
  (region_types.foldl
    (fun st tag =>
      (regs.filter (fun r => decide (r.tag = tag))).foldl
        (fun st reg =>
          match parsePagexmlRegion reg st.2 with
          | some res => (st.1 ++ [res], st.2 + 1)
          | none => st)
        st)
    (([] : List (AnnotationRec × Option PyStr)), 1)).1

/-- The claim's annotation: bbox-typed, `MainZone`, label `foo`, reading
order 3, metadata `{"lang": "en"}`, with arbitrary bbox coordinates. -/
def c1ann (x y w h : Nat) : AnnotationRec :=
  { annotation_type := "bbox".data, classification := some "MainZone".data,
    label := "foo".data, reading_order := 3,
    metadata := [("lang".data, "en".data)],
    coordinates := .bbox x y w h }

theorem digitChar_isDigit (n : Nat) (h : n < 10) :
    (Nat.digitChar n).isDigit = true := by
  interval_cases n <;> decide

theorem digitChar_toSub (n : Nat) (h : n < 10) :
    (Nat.digitChar n).toNat - 48 = n := by
  interval_cases n <;> decide

theorem natReprAux_spec :
    ∀ fuel n, n < fuel →
      natReprAux fuel n ≠ [] ∧
        (natReprAux fuel n).all Char.isDigit = true ∧
        ∀ acc : Nat,
          (natReprAux fuel n).foldl (fun a c => 10 * a + (c.toNat - '0'.toNat)) acc
            = acc * 10 ^ (natReprAux fuel n).length + n := by
  intro fuel
  induction fuel with
  | zero => intro n h; omega
  | succ f ih =>
    intro n h
    by_cases h10 : n < 10
    · unfold natReprAux
      rw [if_pos h10]
      refine ⟨by simp, by simp [digitChar_isDigit n h10], ?_⟩
      intro acc
      simp [List.foldl, digitChar_toSub n h10]
      ring
    · unfold natReprAux
      rw [if_neg h10]
      have hdiv : n / 10 < f := by
        have h1 : n / 10 < n := Nat.div_lt_self (by omega) (by omega)
        omega
      obtain ⟨hne, hdig, hval⟩ := ih (n / 10) hdiv
      have hmod : n % 10 < 10 := Nat.mod_lt _ (by omega)
      refine ⟨by simp, ?_, ?_⟩
      · rw [List.all_append]
        simp [hdig, digitChar_isDigit _ hmod]
      · intro acc
        rw [List.foldl_append, hval acc]
        simp [List.foldl, digitChar_toSub _ hmod, List.length_append]
        rw [Nat.pow_succ]
        have := Nat.div_add_mod n 10
        ring_nf
        omega

theorem pyParseNat_natRepr (n : Nat) : pyParseNat (natRepr n) = some n := by
  obtain ⟨hne, hdig, hval⟩ := natReprAux_spec (n + 1) n (Nat.lt_succ_self n)
  unfold pyParseNat natRepr
  rw [if_pos ⟨hne, hdig⟩]
  rw [hval 0]
  simp


theorem isDigit_props (c : Char) (h : c.isDigit = true) :
    c ≠ '&' ∧ c ≠ ',' ∧ c.isWhitespace = false := by
  simp only [Char.isDigit, Bool.and_eq_true, decide_eq_true_eq] at h
  refine ⟨?_, ?_, ?_⟩
  · rintro rfl; revert h; decide
  · rintro rfl; revert h; decide
  · simp only [Char.isWhitespace]
    rcases h with ⟨h1, h2⟩
    have hne1 : c ≠ ' ' := by rintro rfl; revert h1 h2; decide
    have hne2 : c ≠ '\t' := by rintro rfl; revert h1 h2; decide
    have hne3 : c ≠ '\n' := by rintro rfl; revert h1 h2; decide
    have hne4 : c ≠ '\r' := by rintro rfl; revert h1 h2; decide
    simp [hne1, hne2, hne3, hne4, Char.ext_iff] at *

theorem natRepr_digits (n : Nat) : ∀ c ∈ natRepr n, c.isDigit = true := by
  obtain ⟨-, hdig, -⟩ := natReprAux_spec (n + 1) n (Nat.lt_succ_self n)
  intro c hc
  exact List.all_eq_true.mp hdig c hc

theorem xmlUnescapeAux_no_amp :
    ∀ (fuel : Nat) (s : PyStr), '&' ∉ s → xmlUnescapeAux fuel s = s := by
  intro fuel
  induction fuel with
  | zero => intro s _; rfl
  | succ f ih =>
    intro s h
    match s with
    | [] => rfl
    | c :: rest =>
      have hc : c ≠ '&' := fun hh => h (hh ▸ List.mem_cons_self _ _)
      unfold xmlUnescapeAux
      rw [if_neg hc]
      rw [ih rest (fun hm => h (List.mem_cons_of_mem _ hm))]

theorem xmlUnescape_no_amp (s : PyStr) (h : '&' ∉ s) : xmlUnescape s = s :=
  xmlUnescapeAux_no_amp s.length s h




theorem pySplit_nil (sep : Char) : pySplit sep [] = [[]] := rfl

theorem pySplit_cons (sep c : Char) (rest : PyStr) :
    pySplit sep (c :: rest)
      = if c = sep then [] :: pySplit sep rest
        else
          match pySplit sep rest with
          | [] => [[c]]
          | h :: t => (c :: h) :: t := rfl

theorem pySplit_no_sep (sep : Char) :
    ∀ a : PyStr, sep ∉ a → pySplit sep a = [a] := by
  intro a
  induction a with
  | nil => intro _; rfl
  | cons c a ih =>
    intro h
    have hc : ¬(c = sep) := fun hh => h (hh ▸ List.mem_cons_self _ _)
    rw [pySplit_cons, if_neg hc, ih (fun hm => h (List.mem_cons_of_mem _ hm))]

theorem pySplit_append_sep (sep : Char) :
    ∀ (a b : PyStr), sep ∉ a →
      pySplit sep (a ++ sep :: b) = a :: pySplit sep b := by
  intro a
  induction a with
  | nil =>
    intro b _
    simp only [List.nil_append]
    rw [pySplit_cons, if_pos rfl]
  | cons c a ih =>
    intro b h
    have hc : ¬(c = sep) := fun hh => h (hh ▸ List.mem_cons_self _ _)
    simp only [List.cons_append]
    rw [pySplit_cons, if_neg hc, ih b (fun hm => h (List.mem_cons_of_mem _ hm))]

theorem splitWsAux_nil (acc : PyStr) :
    splitWsAux [] acc = if acc = [] then [] else [acc.reverse] := rfl

theorem splitWsAux_cons (c : Char) (rest acc : PyStr) :
    splitWsAux (c :: rest) acc
      = if c.isWhitespace then
          if acc = [] then splitWsAux rest [] else acc.reverse :: splitWsAux rest []
        else splitWsAux rest (c :: acc) := rfl

theorem splitWsAux_no_ws :
    ∀ (w rest acc : PyStr), (∀ c ∈ w, c.isWhitespace = false) →
      splitWsAux (w ++ rest) acc = splitWsAux rest (w.reverse ++ acc) := by
  intro w
  induction w with
  | nil => intro rest acc _; simp
  | cons c w ih =>
    intro rest acc h
    have hc : c.isWhitespace = false := h c (List.mem_cons_self _ _)
    simp only [List.cons_append]
    rw [splitWsAux_cons, hc]
    simp only [Bool.false_eq_true, if_false]
    rw [ih rest (c :: acc) (fun d hd => h d (List.mem_cons_of_mem _ hd))]
    simp

/-- The one-point serialization `f"{x},{y}"`. -/
def pointWord (p : Nat × Nat) : PyStr :=
  natRepr p.1 ++ ",".data ++ natRepr p.2

theorem pointWord_chars (p : Nat × Nat) :
    ∀ c ∈ pointWord p, c.isDigit = true ∨ c = ',' := by
  intro c hc
  unfold pointWord at hc
  rcases List.mem_append.mp hc with h1 | h2
  · rcases List.mem_append.mp h1 with ha | hb
    · exact Or.inl (natRepr_digits _ c ha)
    · simp at hb
      exact Or.inr hb
  · exact Or.inl (natRepr_digits _ c h2)

theorem pointWord_ne_nil (p : Nat × Nat) : pointWord p ≠ [] := by
  unfold pointWord
  obtain ⟨hne, -, -⟩ := natReprAux_spec (p.1 + 1) p.1 (Nat.lt_succ_self _)
  unfold natRepr
  intro h
  rcases List.append_eq_nil.mp h with ⟨h1, -⟩
  rcases List.append_eq_nil.mp h1 with ⟨h2, -⟩
  exact hne h2

theorem pointWord_no_ws (p : Nat × Nat) :
    ∀ c ∈ pointWord p, c.isWhitespace = false := by
  intro c hc
  rcases pointWord_chars p c hc with h | h
  · exact (isDigit_props c h).2.2
  · rw [h]; decide

theorem intercalate_cons_cons (sep a b : PyStr) (t : List PyStr) :
    List.intercalate sep (a :: b :: t) = a ++ sep ++ List.intercalate sep (b :: t) := by
  simp [List.intercalate, List.intersperse]

theorem pointsStrOfPoints_singleton (p : Nat × Nat) :
    pointsStrOfPoints [p] = pointWord p := by
  simp [pointsStrOfPoints, pointWord, List.intercalate, List.intersperse]

theorem pointsStrOfPoints_cons_cons (p q : Nat × Nat) (t : List (Nat × Nat)) :
    pointsStrOfPoints (p :: q :: t)
      = pointWord p ++ ' ' :: pointsStrOfPoints (q :: t) := by
  unfold pointsStrOfPoints pointWord
  rw [List.map_cons, List.map_cons, intercalate_cons_cons]
  simp

theorem pySplitWs_pointsStr :
    ∀ ps : List (Nat × Nat), pySplitWs (pointsStrOfPoints ps) = ps.map pointWord := by
  intro ps
  induction ps with
  | nil => rfl
  | cons p rest ih =>
    cases rest with
    | nil =>
      rw [pointsStrOfPoints_singleton, List.map_cons, List.map_nil]
      unfold pySplitWs
      have h1 := splitWsAux_no_ws (pointWord p) [] [] (pointWord_no_ws p)
      simp only [List.append_nil] at h1
      rw [h1, splitWsAux_nil, if_neg (by simp [pointWord_ne_nil p])]
      simp
    | cons q t =>
      rw [pointsStrOfPoints_cons_cons]
      unfold pySplitWs
      rw [splitWsAux_no_ws (pointWord p) (' ' :: pointsStrOfPoints (q :: t)) []
        (pointWord_no_ws p)]
      rw [splitWsAux_cons, if_pos (by decide)]
      rw [if_neg (by simp [pointWord_ne_nil p])]
      simp only [List.append_nil, List.reverse_reverse]
      rw [List.map_cons]
      exact congrArg (fun l => pointWord p :: l) ih

theorem comma_not_mem_natRepr (n : Nat) : ',' ∉ natRepr n := by
  intro h
  have := natRepr_digits n ',' h
  exact absurd this (by decide)

theorem parsePointsAux_words :
    ∀ ps : List (Nat × Nat), parsePointsAux (ps.map pointWord) = some ps := by
  intro ps
  induction ps with
  | nil => rfl
  | cons p rest ih =>
    rw [List.map_cons]
    unfold parsePointsAux
    rw [if_pos ?hmem]
    case hmem =>
      unfold pointWord
      simp
    have hsplit : pySplit ',' (pointWord p) = [natRepr p.1, natRepr p.2] := by
      unfold pointWord
      have : natRepr p.1 ++ ",".data ++ natRepr p.2
          = natRepr p.1 ++ ',' :: natRepr p.2 := by simp
      rw [this, pySplit_append_sep ',' _ _ (comma_not_mem_natRepr p.1),
        pySplit_no_sep ',' _ (comma_not_mem_natRepr p.2)]
    rw [hsplit]
    simp only [pyParseNat_natRepr, ih]
    rfl

theorem amp_not_mem_pointsStr (ps : List (Nat × Nat)) :
    '&' ∉ pointsStrOfPoints ps := by
  induction ps with
  | nil => simp [pointsStrOfPoints, List.intercalate]
  | cons p rest ih =>
    cases rest with
    | nil =>
      rw [pointsStrOfPoints_singleton]
      intro h
      rcases pointWord_chars p '&' h with hd | hd
      · exact absurd ((isDigit_props '&' hd).1 rfl) (by simp)
      · revert hd; decide
    | cons q t =>
      rw [pointsStrOfPoints_cons_cons]
      intro h
      rcases List.mem_append.mp h with h1 | h2
      · rcases pointWord_chars p '&' h1 with hd | hd
        · exact absurd ((isDigit_props '&' hd).1 rfl) (by simp)
        · revert hd; decide
      · rcases List.mem_cons.mp h2 with h3 | h3
        · revert h3; decide
        · exact ih h3

theorem parsePoints_roundTrip (ps : List (Nat × Nat)) :
    parsePoints (xmlUnescape (pointsStrOfPoints ps)) = some ps := by
  rw [xmlUnescape_no_amp _ (amp_not_mem_pointsStr ps)]
  unfold parsePoints
  rw [pySplitWs_pointsStr, parsePointsAux_words]

theorem listMin_corners (x w : Nat) : listMin [x, x + w, x + w, x] = x := by
  have h1 : min x (x + w) = x := min_eq_left (Nat.le_add_right x w)
  simp [listMin, List.foldl, h1, min_self]

theorem listMax_corners (x w : Nat) : listMax [x, x + w, x + w, x] = x + w := by
  have h1 : max x (x + w) = x + w := max_eq_right (Nat.le_add_right x w)
  have h2 : max (x + w) x = x + w := max_eq_left (Nat.le_add_right x w)
  simp [listMax, List.foldl, h1, h2, max_self]

theorem listMin_corners_y (y h : Nat) : listMin [y, y, y + h, y + h] = y := by
  have h1 : min y (y + h) = y := min_eq_left (Nat.le_add_right y h)
  simp [listMin, List.foldl, h1, min_self]

theorem listMax_corners_y (y h : Nat) : listMax [y, y, y + h, y + h] = y + h := by
  have h1 : max y (y + h) = y + h := max_eq_right (Nat.le_add_right y h)
  simp [listMax, List.foldl, h1, max_self]

theorem c1_region_round_trip (x y w h : Nat) :
    parsePagexmlRegion (exportAnnotationRegion (c1ann x y w h) (some "Hello".data)) 1
      = some (c1ann x y w h, some "Hello".data) := by
  have hpts : (exportAnnotationRegion (c1ann x y w h) (some "Hello".data)).points_str
      = pointsStrOfPoints [(x, y), (x + w, y), (x + w, y + h), (x, y + h)] := by
    simp only [exportAnnotationRegion, c1ann]
  have hcu : (exportAnnotationRegion (c1ann x y w h) (some "Hello".data)).custom
      = "annotation_type:bbox;classification:MainZone;label:foo;reading_order:3".data := by
    simp only [exportAnnotationRegion, c1ann]
    decide
  have hum : (exportAnnotationRegion (c1ann x y w h) (some "Hello".data)).userMetadata
      = some "lang:en".data := by
    simp only [exportAnnotationRegion, c1ann]
    decide
  have htl : (exportAnnotationRegion (c1ann x y w h) (some "Hello".data)).textlines
      = ["Hello".data] := by
    simp only [exportAnnotationRegion, c1ann]
    decide
  have hcustom : parseCustomFields
        (xmlUnescape
          "annotation_type:bbox;classification:MainZone;label:foo;reading_order:3".data) 1
      = ⟨"bbox".data, "MainZone".data, "foo".data, 3⟩ := by decide
  have hmeta : parseMetadataFields ((some "lang:en".data).map xmlUnescape)
      = [("lang".data, "en".data)] := by decide
  have htext : (["Hello".data].foldl
        (fun acc t => if pyTruthy t then acc ++ xmlUnescape t ++ ['\n'] else acc) [])
      = "Hello\n".data := by decide
  unfold parsePagexmlRegion
  rw [hpts, parsePoints_roundTrip, hcu, hum, htl, hcustom, hmeta, htext]
  simp only [List.length_cons, List.length_nil, List.map_cons, List.map_nil]
  rw [if_pos (by omega)]
  rw [if_pos (⟨trivial, by omega⟩ : True ∧ 0 + 1 + 1 + 1 + 1 ≥ 4)]
  rw [listMin_corners, listMax_corners, listMin_corners_y, listMax_corners_y]
  simp only [Nat.add_sub_cancel_left]
  rw [if_pos (by decide)]
  rw [show pyStrip "Hello\n".data = "Hello".data from by decide]
  rfl

theorem importRegionsOfPage_singleton_text (reg : PageRegion)
    (htag : reg.tag = "TextRegion".data) (res : AnnotationRec × Option PyStr)
    (hres : parsePagexmlRegion reg 1 = some res) :
    importRegionsOfPage [reg] = [res] := by
  have h1 : [reg].filter (fun r => decide (r.tag = "TextRegion".data)) = [reg] := by
    simp [List.filter, htag]
  have h2 : ∀ t : PyStr, ¬("TextRegion".data = t) →
      [reg].filter (fun r => decide (r.tag = t)) = [] := by
    intro t ht
    simp [List.filter, htag, ht]
  unfold importRegionsOfPage region_types
  simp only [List.foldl_cons, List.foldl_nil]
  rw [h1, h2 "GraphicRegion".data (by decide), h2 "ImageRegion".data (by decide),
    h2 "LineDrawingRegion".data (by decide), h2 "ChartRegion".data (by decide),
    h2 "TableRegion".data (by decide), h2 "CustomRegion".data (by decide)]
  simp only [List.foldl_cons, List.foldl_nil]
  rw [hres]
  rfl

/-- C1: exporting an image whose single annotation is the claim's bbox
annotation (`annotation_type=bbox`, `classification=MainZone`,
`label="foo"`, `reading_order=3`, `metadata={"lang":"en"}`, any bbox
coordinates) with current transcription text `"Hello"` to PageXML, and
then importing that PageXML, reconstructs an annotation with the same
annotation_type, classification, label, reading_order and metadata map, an
annotation-scoped current transcription with the same text, and bbox
coordinates that resolve — through the four-corner point list and the
min/max collapse — to exactly the same `{x, y, width, height}`. -/
theorem c1_pagexml_round_trip (x y w h : Nat) :
    importRegionsOfPage (generatePagexmlRegions [(c1ann x y w h, some "Hello".data)])
      = [(c1ann x y w h, some "Hello".data)] := by
  show importRegionsOfPage [exportAnnotationRegion (c1ann x y w h) (some "Hello".data)]
      = [(c1ann x y w h, some "Hello".data)]
  apply importRegionsOfPage_singleton_text
  · simp only [exportAnnotationRegion, c1ann]
    decide
  · exact c1_region_round_trip x y w h

end VLAMy
